import Mathlib

/-!
# Verification of the textual and binary codecs of go-eth2-client

Shallow embedding of the JSON/YAML codec of `spec/altair/beaconblock.go`
(the `BeaconBlock` struct, its `MarshalJSON` / `UnmarshalJSON` /
`MarshalYAML` / `unpack` functions), of the `phase0.DepositMessage`
textual codec (modelled from the spec and its test fixtures, since its
implementation file is not among the inspected sources), and of the SSZ
binary codec for the fixed-size `DepositMessage` shape (likewise modelled
from the spec, the generated SSZ code not being among the sources).

Byte strings are `List Nat` with every element `< 256`; textual data is
`List Char`.  Go's `encoding/json` byte layer for a flat struct of string
fields is modelled at the struct level (`BeaconBlockJSON`), with a small
JSON value parser standing in for the stdlib scanner where the staging of
errors matters.
-/

namespace GoEth2

/-- Textual data: Go strings, as lists of characters. -/
abbrev Str := List Char

/-! ## Decimal numbers: `strconv.ParseUint` and `fmt.Sprintf "%d"` -/

/-- Value of a decimal digit character, `none` for a non-digit. -/
def digitVal (c : Char) : Option Nat :=
  if '0' ≤ c ∧ c ≤ '9' then some (c.toNat - 48) else none

/-- Left-to-right accumulation of decimal digits; `none` on a non-digit. -/
def parseDigitsAux (acc : Nat) : Str → Option Nat
  | [] => some acc
  | c :: rest =>
    match digitVal c with
    | none => none
    | some d => parseDigitsAux (acc * 10 + d) rest

/-- `strconv.ParseUint(s, 10, 64)`: base-10, 64-bit.  Empty and non-digit
strings fail with a syntax error, values not fitting in 64 bits fail with
a range error (Go returns the clamped value alongside the error; every
caller here discards it, so the model returns the error alone). -/
def parseUint64 (s : Str) : Except String Nat :=
  if s = [] then
    .error ("strconv.ParseUint: parsing \"" ++ String.mk s ++ "\": invalid syntax")
  else
    match parseDigitsAux 0 s with
    | none =>
      .error ("strconv.ParseUint: parsing \"" ++ String.mk s ++ "\": invalid syntax")
    | some n =>
      if n < 2 ^ 64 then .ok n
      else .error ("strconv.ParseUint: parsing \"" ++ String.mk s ++ "\": value out of range")

/-- The character of a decimal digit. -/
def digitChar (d : Nat) : Char := Char.ofNat (48 + d)

/-- Accumulator form of decimal rendering: digits of `n` followed by `acc`.
Structurally recursive on a fuel bound so that it reduces in the kernel;
`fuel ≥ 1` plus `n < 10 ^ fuel` make the `fuel = 0` case unreachable. -/
def natToDecAux : Nat → Nat → Str → Str
  | 0, _, acc => acc
  | fuel + 1, n, acc =>
    if n / 10 = 0 then digitChar (n % 10) :: acc
    else natToDecAux fuel (n / 10) (digitChar (n % 10) :: acc)

/-- `fmt.Sprintf("%d", n)` for an unsigned integer. -/
def natToDec (n : Nat) : Str := natToDecAux (n + 1) n []

/-! ## Hexadecimal: `encoding/hex` and `fmt.Sprintf "%#x"` -/

/-- Value of a hexadecimal digit character (both cases), `none` otherwise;
`encoding/hex.fromHexChar`. -/
def hexVal (c : Char) : Option Nat :=
  if '0' ≤ c ∧ c ≤ '9' then some (c.toNat - 48)
  else if 'a' ≤ c ∧ c ≤ 'f' then some (c.toNat - 87)
  else if 'A' ≤ c ∧ c ≤ 'F' then some (c.toNat - 55)
  else none

/-- `hex.DecodeString`: pairs of hex digits to bytes; an invalid character
fails with an invalid-byte error, an odd count of (valid) digits fails with
the odd-length error.  (Go reports the offending character inside the
invalid-byte message; the cause text is abbreviated here, no theorem
inspects it.) -/
def hexDecode : Str → Except String (List Nat)
  | [] => .ok []
  | [c] =>
    match hexVal c with
    | some _ => .error "encoding/hex: odd length hex string"
    | none => .error "encoding/hex: invalid byte"
  | c1 :: c2 :: rest =>
    match hexVal c1 with
    | none => .error "encoding/hex: invalid byte"
    | some hi =>
      match hexVal c2 with
      | none => .error "encoding/hex: invalid byte"
      | some lo =>
        match hexDecode rest with
        | .error e => .error e
        | .ok bs => .ok ((16 * hi + lo) :: bs)

/-- Lowercase hex digit character. -/
def hexDigitChar (d : Nat) : Char :=
  if d < 10 then Char.ofNat (48 + d) else Char.ofNat (87 + d)

/-- Two lowercase hex digits per byte, `fmt.Sprintf("%x", bytes)`. -/
def hexEncodeBytes : List Nat → Str
  | [] => []
  | b :: rest => hexDigitChar (b / 16) :: hexDigitChar (b % 16) :: hexEncodeBytes rest

/-- `fmt.Sprintf("%#x", root)`: `0x` followed by lowercase hex. -/
def rootToHex (bs : List Nat) : Str := '0' :: 'x' :: hexEncodeBytes bs

/-- `strings.TrimPrefix(s, "0x")`: drop one leading `0x` if present. -/
def trim0x (s : Str) : Str :=
  if s.take 2 = ['0', 'x'] then s.drop 2 else s

/-! ## Little-endian bytes (SSZ scalars) -/

/-- `w` little-endian bytes of `n`. -/
def leBytes : Nat → Nat → List Nat
  | 0, _ => []
  | w + 1, n => n % 256 :: leBytes w (n / 256)

/-- Read a little-endian byte string as an unsigned integer. -/
def leToNat : List Nat → Nat
  | [] => 0
  | b :: rest => b + 256 * leToNat rest

/-- A byte string: every element fits in a byte. -/
def isBytes (bs : List Nat) : Prop := ∀ b ∈ bs, b < 256

instance (bs : List Nat) : Decidable (isBytes bs) := by
  unfold isBytes; infer_instance

/-! ## JSON values and a parser for them

Modelled from the spec: Go's `encoding/json` scanner and parser are an
external collaborator (stdlib), not repository code.  Only the behaviour
the repository's tests pin down is relied on: empty input fails with the
message `unexpected end of JSON input` before any struct field is
examined, and valid object input is delivered to the struct layer (absent
or `null` string fields become the empty string, wrong-kind fields fail).
Numbers are modelled as unsigned decimal integers, the only numeric form
the fixtures use. -/

inductive JVal where
  | jnull
  | jbool (b : Bool)
  | jnum (n : Nat)
  | jstr (s : Str)
  | jarr (elems : List JVal)
  | jobj (fields : List (Str × JVal))

/-- JSON whitespace. -/
def isWs (c : Char) : Bool := c = ' ' ∨ c = '\t' ∨ c = '\n' ∨ c = '\r'

/-- Drop leading whitespace. -/
def skipWs (s : Str) : Str := s.dropWhile isWs

/-- Scan a string literal after its opening quote; returns content and the
rest of the input.  Escapes beyond `\"` and backslash are not needed by
any fixture and map to the escaped character itself. -/
def scanStr : Str → Option (Str × Str)
  | [] => none
  | c :: rest =>
    if c = '"' then some ([], rest)
    else if c = '\\' then
      match rest with
      | [] => none
      | d :: r2 =>
        match scanStr r2 with
        | none => none
        | some (s, r) => some (d :: s, r)
    else
      match scanStr rest with
      | none => none
      | some (s, r) => some (c :: s, r)

mutual

/-- Parse one JSON value from the front of the input. -/
def parseVal : Nat → Str → Except String (JVal × Str)
  | 0, _ => .error "max depth exceeded"
  | fuel + 1, s =>
    match skipWs s with
    | [] => .error "unexpected end of JSON input"
    | '"' :: rest =>
      match scanStr rest with
      | none => .error "unexpected end of JSON input"
      | some (str, r) => .ok (.jstr str, r)
    | '\x7b' :: rest => parseObj fuel rest []
    | '[' :: rest => parseArr fuel rest []
    | 't' :: 'r' :: 'u' :: 'e' :: r => .ok (.jbool true, r)
    | 'f' :: 'a' :: 'l' :: 's' :: 'e' :: r => .ok (.jbool false, r)
    | 'n' :: 'u' :: 'l' :: 'l' :: r => .ok (.jnull, r)
    | c :: rest =>
      match digitVal c with
      | none => .error "invalid character looking for beginning of value"
      | some d =>
        let ds := rest.takeWhile (fun x => (digitVal x).isSome)
        let r := rest.dropWhile (fun x => (digitVal x).isSome)
        match parseDigitsAux d ds with
        | none => .error "invalid number literal"
        | some n => .ok (.jnum n, r)

/-- Parse the fields of an object after its opening brace. -/
def parseObj : Nat → Str → List (Str × JVal) → Except String (JVal × Str)
  | 0, _, _ => .error "max depth exceeded"
  | fuel + 1, s, acc =>
    match skipWs s with
    | [] => .error "unexpected end of JSON input"
    | '\x7d' :: r =>
      if acc.isEmpty then .ok (.jobj [], r)
      else .error "invalid character looking for beginning of object key string"
    | '"' :: rest =>
      match scanStr rest with
      | none => .error "unexpected end of JSON input"
      | some (key, r1) =>
        match skipWs r1 with
        | ':' :: r2 =>
          match parseVal fuel r2 with
          | .error e => .error e
          | .ok (v, r3) =>
            match skipWs r3 with
            | ',' :: r4 => parseObj fuel r4 (acc ++ [(key, v)])
            | '\x7d' :: r4 => .ok (.jobj (acc ++ [(key, v)]), r4)
            | _ => .error "invalid character after object key:value pair"
        | _ => .error "invalid character after object key"
    | _ => .error "invalid character looking for beginning of object key string"

/-- Parse the elements of an array after its opening bracket. -/
def parseArr : Nat → Str → List JVal → Except String (JVal × Str)
  | 0, _, _ => .error "max depth exceeded"
  | fuel + 1, s, acc =>
    match skipWs s with
    | [] => .error "unexpected end of JSON input"
    | ']' :: r =>
      if acc.isEmpty then .ok (.jarr [], r)
      else .error "invalid character looking for beginning of value"
    | s1 =>
      match parseVal fuel s1 with
      | .error e => .error e
      | .ok (v, r1) =>
        match skipWs r1 with
        | ',' :: r2 => parseArr fuel r2 (acc ++ [v])
        | ']' :: r2 => .ok (.jarr (acc ++ [v]), r2)
        | _ => .error "invalid character after array element"

end

/-- Parse a complete JSON document; trailing content must be whitespace. -/
def parseJson (s : Str) : Except String JVal :=
  match parseVal (s.length + 1) s with
  | .error e => .error e
  | .ok (v, r) =>
    if skipWs r = [] then .ok v
    else .error "invalid character after top-level value"

/-- First binding of a key in an object's field list (`encoding/json` keeps
the last duplicate; fixtures have no duplicates, first = last there). -/
def lookupJ (k : Str) : List (Str × JVal) → Option JVal
  | [] => none
  | (k', v) :: rest => if k' = k then some v else lookupJ k rest

/-! ## The `altair.BeaconBlock` textual codec (`spec/altair/beaconblock.go`)

`phase0.Slot` and `phase0.ValidatorIndex` are `uint64`, `phase0.Root` is
`[32]byte`; `*BeaconBlockBody` is held abstract as an `Option β` (its own
codec is outside the inspected sources and the block codec only passes the
pointer through). -/

/-- `phase0.RootLength`. -/
def RootLength : Nat := 32

/-- `altair.BeaconBlock`. -/
structure BeaconBlock (β : Type) where
  Slot : Nat
  ProposerIndex : Nat
  ParentRoot : List Nat
  StateRoot : List Nat
  Body : Option β
deriving DecidableEq

/-- `altair.beaconBlockJSON`: the intermediate struct of string fields the
JSON bytes are (un)marshalled through.  A field absent from the input
leaves the Go zero value, the empty string (`body`: `nil`). -/
structure BeaconBlockJSON (β : Type) where
  slot : Str
  proposerIndex : Str
  parentRoot : Str
  stateRoot : Str
  body : Option β
deriving DecidableEq

/-- `altair.beaconBlockYAML`: the intermediate struct for `MarshalYAML`.
`slot` and `proposer_index` are `uint64` there, not strings. -/
structure BeaconBlockYAML (β : Type) where
  slot : Nat
  proposerIndex : Nat
  parentRoot : Str
  stateRoot : Str
  body : Option β
deriving DecidableEq

/-- `BeaconBlock.MarshalJSON`, at the level of the intermediate struct
(`json.Marshal` of a flat struct of strings is modelled as the identity on
that struct). -/
def BeaconBlock.marshalJSON {β : Type} (b : BeaconBlock β) : BeaconBlockJSON β :=
  { slot := natToDec b.Slot
    proposerIndex := natToDec b.ProposerIndex
    parentRoot := rootToHex b.ParentRoot
    stateRoot := rootToHex b.StateRoot
    body := b.Body }

/-- `BeaconBlock.MarshalYAML`, at the level of the intermediate struct. -/
def BeaconBlock.marshalYAML {β : Type} (b : BeaconBlock β) : BeaconBlockYAML β :=
  { slot := b.Slot
    proposerIndex := b.ProposerIndex
    parentRoot := rootToHex b.ParentRoot
    stateRoot := rootToHex b.StateRoot
    body := b.Body }

/-- The textual tree `MarshalJSON` emits for the scalar fields, with each
value tagged by its textual kind (string vs bare number).  `body` is the
opaque `β`'s own rendering and is not part of this tree. -/
def BeaconBlock.jsonTextTree {β : Type} (b : BeaconBlock β) : List (Str × JVal) :=
  [("slot".toList, .jstr (natToDec b.Slot)),
   ("proposer_index".toList, .jstr (natToDec b.ProposerIndex)),
   ("parent_root".toList, .jstr (rootToHex b.ParentRoot)),
   ("state_root".toList, .jstr (rootToHex b.StateRoot))]

/-- The textual tree `MarshalYAML` emits for the scalar fields: the
`uint64` fields of `beaconBlockYAML` surface as bare YAML numbers. -/
def BeaconBlock.yamlTextTree {β : Type} (b : BeaconBlock β) : List (Str × JVal) :=
  [("slot".toList, .jnum b.Slot),
   ("proposer_index".toList, .jnum b.ProposerIndex),
   ("parent_root".toList, .jstr (rootToHex b.ParentRoot)),
   ("state_root".toList, .jstr (rootToHex b.StateRoot))]

/-- `BeaconBlock.unpack`.  Go mutates the receiver field by field and
returns only an error; the model returns the error alongside the final
state of the receiver.  `copy(b.ParentRoot[:], parentRoot)` with exactly
`RootLength` bytes (guaranteed by the preceding length check) replaces the
whole array, so it is modelled as direct assignment. -/
def BeaconBlock.unpack {β : Type} (b : BeaconBlock β) (j : BeaconBlockJSON β) :
    Option String × BeaconBlock β :=
  if j.slot = [] then (some "slot missing", b) else
  match parseUint64 j.slot with
  | .error e => (some ("invalid value for slot: " ++ e), b)
  | .ok slot =>
    let b := { b with Slot := slot }
    if j.proposerIndex = [] then (some "proposer index missing", b) else
    match parseUint64 j.proposerIndex with
    | .error e => (some ("invalid value for proposer index: " ++ e), b)
    | .ok proposerIndex =>
      let b := { b with ProposerIndex := proposerIndex }
      if j.parentRoot = [] then (some "parent root missing", b) else
      match hexDecode (trim0x j.parentRoot) with
      | .error e => (some ("invalid value for parent root: " ++ e), b)
      | .ok parentRoot =>
        if parentRoot.length ≠ RootLength then (some "incorrect length for parent root", b) else
        let b := { b with ParentRoot := parentRoot }
        if j.stateRoot = [] then (some "state root missing", b) else
        match hexDecode (trim0x j.stateRoot) with
        | .error e => (some ("invalid value for state root: " ++ e), b)
        | .ok stateRoot =>
          if stateRoot.length ≠ RootLength then (some "incorrect length for state root", b) else
          let b := { b with StateRoot := stateRoot }
          match j.body with
          | none => (some "body missing", b)
          | some body => (none, { b with Body := some body })

/-- Extraction of a `string`-typed struct field from a parsed JSON object:
absent and `null` leave the zero value (empty string); a non-string value
fails (Go's message names the concrete types; abbreviated here). -/
def getStrField (k : Str) (fs : List (Str × JVal)) : Except String Str :=
  match lookupJ k fs with
  | none => .ok []
  | some .jnull => .ok []
  | some (.jstr s) => .ok s
  | some _ => .error "json: cannot unmarshal value into Go struct field of type string"

/-- Extraction of the `body` pointer field: absent and `null` leave `nil`;
any other value is handed to `BeaconBlockBody`'s own unmarshaller, which
is outside the inspected sources and is modelled as accepting the raw
parsed value. -/
def getBodyField (fs : List (Str × JVal)) : Option JVal :=
  match lookupJ "body".toList fs with
  | none => none
  | some .jnull => none
  | some v => some v

/-- `json.Unmarshal` of a parsed JSON value into `beaconBlockJSON`: only
an object is accepted. -/
def jvalToBlockJSON : JVal → Except String (BeaconBlockJSON JVal)
  | .jobj fs => do
    let s ← getStrField "slot".toList fs
    let p ← getStrField "proposer_index".toList fs
    let pr ← getStrField "parent_root".toList fs
    let sr ← getStrField "state_root".toList fs
    .ok { slot := s, proposerIndex := p, parentRoot := pr, stateRoot := sr,
          body := getBodyField fs }
  | _ => .error "json: cannot unmarshal value into Go value of type altair.beaconBlockJSON"

/-- The full textual decode path for a `BeaconBlock`: `json.Unmarshal`
first validity-scans the whole input (its scanner errors, e.g. on empty
input, surface unwrapped, before any struct field is looked at), then
`BeaconBlock.UnmarshalJSON` re-parses into `beaconBlockJSON` (those errors
wrapped with `invalid JSON: `) and `unpack`s. -/
def BeaconBlock.unmarshalJSON (b : BeaconBlock JVal) (input : Str) :
    Option String × BeaconBlock JVal :=
  match parseJson input with
  | .error e => (some e, b)
  | .ok v =>
    match jvalToBlockJSON v with
    | .error e => (some ("invalid JSON: " ++ e), b)
    | .ok j => b.unpack j

/-- Well-formedness of a block value: the `uint64` fields fit in 64 bits,
the roots are exactly `RootLength` bytes, the body pointer is non-nil. -/
def BeaconBlock.wf {β : Type} (b : BeaconBlock β) : Prop :=
  b.Slot < 2 ^ 64 ∧ b.ProposerIndex < 2 ^ 64 ∧
  b.ParentRoot.length = RootLength ∧ isBytes b.ParentRoot ∧
  b.StateRoot.length = RootLength ∧ isBytes b.StateRoot ∧
  b.Body.isSome = true

instance {β : Type} (b : BeaconBlock β) : Decidable b.wf := by
  unfold BeaconBlock.wf; infer_instance

/-! ## The `phase0.DepositMessage` codec

Modelled from the spec: `spec/phase0/depositmessage.go` is not among the
inspected sources, only its test file is.  The shape (48-byte `pubkey`,
32-byte `withdrawal_credentials`, `uint64` `amount`) and the decoder's
error strings are taken from spec §4.3/§7 and the fixtures of
`depositmessage_test.go`. -/

/-- `phase0.PublicKeyLength`. -/
def PublicKeyLength : Nat := 48

/-- `phase0.DepositMessage`. -/
structure DepositMessage where
  PublicKey : List Nat
  WithdrawalCredentials : List Nat
  Amount : Nat
deriving DecidableEq

/-- `phase0.depositMessageJSON`. -/
structure DepositMessageJSON where
  pubkey : Str
  withdrawalCredentials : Str
  amount : Str
deriving DecidableEq

/-- Modelled from the spec: `DepositMessage`'s `unpack`, strict
field-by-field validation in declared order with the error strings the
tests pin down. -/
def DepositMessage.unpack (d : DepositMessage) (j : DepositMessageJSON) :
    Option String × DepositMessage :=
  if j.pubkey = [] then (some "public key missing", d) else
  match hexDecode (trim0x j.pubkey) with
  | .error e => (some ("invalid value for public key: " ++ e), d)
  | .ok publicKey =>
    if publicKey.length ≠ PublicKeyLength then (some "incorrect length for public key", d) else
    let d := { d with PublicKey := publicKey }
    if j.withdrawalCredentials = [] then (some "withdrawal credentials missing", d) else
    match hexDecode (trim0x j.withdrawalCredentials) with
    | .error e => (some ("invalid value for withdrawal credentials: " ++ e), d)
    | .ok withdrawalCredentials =>
      if withdrawalCredentials.length ≠ RootLength then
        (some "incorrect length for withdrawal credentials", d)
      else
        let d := { d with WithdrawalCredentials := withdrawalCredentials }
        if j.amount = [] then (some "amount missing", d) else
        match parseUint64 j.amount with
        | .error e => (some ("invalid value for amount: " ++ e), d)
        | .ok amount => (none, { d with Amount := amount })

/-- Modelled from the spec: `DepositMessage.MarshalJSON` at the struct
level (decimal-string amount, `0x`-hex byte fields). -/
def DepositMessage.marshalJSON (d : DepositMessage) : DepositMessageJSON :=
  { pubkey := rootToHex d.PublicKey
    withdrawalCredentials := rootToHex d.WithdrawalCredentials
    amount := natToDec d.Amount }

/-- Modelled from the spec: `DepositMessage.MarshalSSZ` (§4.1) for this
fixed-size shape — the three fields' encodings concatenated, the `uint64`
in little-endian. -/
def DepositMessage.marshalSSZ (d : DepositMessage) : List Nat :=
  d.PublicKey ++ d.WithdrawalCredentials ++ leBytes 8 d.Amount

/-- Modelled from the spec: `DepositMessage.UnmarshalSSZ` (§4.1): a
fixed-size composite requires exactly its declared byte count
(48 + 32 + 8 = 88) and slices it field by field. -/
def DepositMessage.unmarshalSSZ (bs : List Nat) : Except String DepositMessage :=
  if bs.length = 88 then
    .ok { PublicKey := bs.take 48
          WithdrawalCredentials := (bs.drop 48).take 32
          Amount := leToNat (bs.drop 80) }
  else .error "incorrect size"

/-- Well-formedness of a deposit message value. -/
def DepositMessage.wf (d : DepositMessage) : Prop :=
  d.PublicKey.length = PublicKeyLength ∧ isBytes d.PublicKey ∧
  d.WithdrawalCredentials.length = RootLength ∧ isBytes d.WithdrawalCredentials ∧
  d.Amount < 2 ^ 64

instance (d : DepositMessage) : Decidable d.wf := by
  unfold DepositMessage.wf; infer_instance

/-! ## Lemmas: decimal rendering and parsing -/

theorem natToDecAux_eq_append (fuel : Nat) : ∀ (n : Nat) (acc : Str),
    natToDecAux fuel n acc = natToDecAux fuel n [] ++ acc := by
  induction fuel with
  | zero => intro n acc; simp [natToDecAux]
  | succ fuel ih =>
    intro n acc
    rw [natToDecAux, natToDecAux]
    by_cases h : n / 10 = 0
    · simp [h]
    · simp only [if_neg h]
      rw [ih (n / 10) (digitChar (n % 10) :: acc), ih (n / 10) [digitChar (n % 10)]]
      simp

/-- With enough fuel the rendering does not depend on the fuel. -/
theorem natToDecAux_fuel_eq (n : Nat) : ∀ (f1 f2 : Nat), n < 10 ^ f1 → n < 10 ^ f2 →
    1 ≤ f1 → 1 ≤ f2 → natToDecAux f1 n [] = natToDecAux f2 n [] := by
  induction n using Nat.strong_induction_on with
  | _ n ih =>
    intro f1 f2 h1 h2 hf1 hf2
    obtain ⟨g1, rfl⟩ : ∃ g1, f1 = g1 + 1 := ⟨f1 - 1, by omega⟩
    obtain ⟨g2, rfl⟩ : ∃ g2, f2 = g2 + 1 := ⟨f2 - 1, by omega⟩
    rw [natToDecAux, natToDecAux]
    by_cases h : n / 10 = 0
    · simp [h]
    · simp only [if_neg h]
      have hpow1 : (10 : Nat) ^ (g1 + 1) = 10 * 10 ^ g1 := by ring
      have hpow2 : (10 : Nat) ^ (g2 + 1) = 10 * 10 ^ g2 := by ring
      have hb1 : n / 10 < 10 ^ g1 := by omega
      have hb2 : n / 10 < 10 ^ g2 := by omega
      have hg1 : 1 ≤ g1 := by
        rcases Nat.eq_zero_or_pos g1 with h0 | h0
        · subst h0; simp at hb1; omega
        · omega
      have hg2 : 1 ≤ g2 := by
        rcases Nat.eq_zero_or_pos g2 with h0 | h0
        · subst h0; simp at hb2; omega
        · omega
      rw [natToDecAux_eq_append g1, natToDecAux_eq_append g2,
          ih (n / 10) (Nat.div_lt_self (by omega) (by omega)) g1 g2 hb1 hb2 hg1 hg2]

theorem natToDec_ne_nil (n : Nat) : natToDec n ≠ [] := by
  rw [natToDec, natToDecAux]
  by_cases h : n / 10 = 0
  · simp [h]
  · simp only [if_neg h]
    rw [natToDecAux_eq_append]
    simp

theorem parseDigitsAux_append (a : Nat) (xs ys : Str) :
    parseDigitsAux a (xs ++ ys) =
      match parseDigitsAux a xs with
      | none => none
      | some v => parseDigitsAux v ys := by
  induction xs generalizing a with
  | nil => simp [parseDigitsAux]
  | cons c rest ih =>
    simp only [List.cons_append, parseDigitsAux]
    cases digitVal c with
    | none => simp
    | some d => simp [ih]

theorem digitVal_digitChar (d : Nat) (h : d < 10) : digitVal (digitChar d) = some d := by
  interval_cases d <;> decide

theorem parseDigitsAux_natToDec (n : Nat) :
    ∀ a, parseDigitsAux a (natToDec n) =
      some (a * 10 ^ (natToDec n).length + n) := by
  induction n using Nat.strong_induction_on with
  | _ n ih =>
    intro a
    by_cases h : n / 10 = 0
    · have hn : n < 10 := by omega
      have : natToDec n = [digitChar n] := by
        rw [natToDec, natToDecAux]
        simp [h, Nat.mod_eq_of_lt hn]
      rw [this]
      simp [parseDigitsAux, digitVal_digitChar n hn]
    · have hsplit : natToDec n = natToDec (n / 10) ++ [digitChar (n % 10)] := by
        rw [natToDec, natToDecAux]
        simp only [if_neg h]
        rw [natToDecAux_eq_append n (n / 10) [digitChar (n % 10)]]
        congr 1
        rw [natToDec]
        exact natToDecAux_fuel_eq (n / 10) n (n / 10 + 1)
          (lt_trans (Nat.div_lt_self (by omega) (by omega))
            (Nat.lt_pow_self (by omega) n))
          (Nat.lt_of_lt_of_le (Nat.lt_pow_self (by omega) (n / 10))
            (Nat.pow_le_pow_right (by omega) (by omega)))
          (by omega) (by omega)
      rw [hsplit, parseDigitsAux_append,
          ih (n / 10) (Nat.div_lt_self (by omega) (by omega)) a]
      simp only [parseDigitsAux, digitVal_digitChar (n % 10) (by omega)]
      have hlen : (natToDec (n / 10) ++ [digitChar (n % 10)]).length =
          (natToDec (n / 10)).length + 1 := by simp
      rw [hlen]
      congr 1
      have : n = 10 * (n / 10) + n % 10 := (Nat.div_add_mod n 10).symm
      ring_nf
      omega

theorem parseUint64_natToDec (n : Nat) (h : n < 2 ^ 64) :
    parseUint64 (natToDec n) = .ok n := by
  rw [parseUint64]
  simp only [natToDec_ne_nil n, ite_false]
  rw [parseDigitsAux_natToDec n 0]
  simp
  omega

/-! ## Lemmas: hexadecimal -/

theorem hexVal_hexDigitChar (d : Nat) (h : d < 16) : hexVal (hexDigitChar d) = some d := by
  interval_cases d <;> decide

theorem hexDecode_hexEncodeBytes (bs : List Nat) (h : isBytes bs) :
    hexDecode (hexEncodeBytes bs) = .ok bs := by
  induction bs with
  | nil => rfl
  | cons b rest ih =>
    have hb : b < 256 := h b (List.mem_cons_self b rest)
    have hrest : isBytes rest := fun x hx => h x (List.mem_cons_of_mem b hx)
    rw [hexEncodeBytes, hexDecode]
    rw [hexVal_hexDigitChar (b / 16) (by omega), hexVal_hexDigitChar (b % 16) (by omega),
        ih hrest]
    have hbyte : 16 * (b / 16) + b % 16 = b := by omega
    simp [hbyte]

theorem trim0x_cons0x (s : Str) : trim0x ('0' :: 'x' :: s) = s := by
  simp [trim0x]

theorem trim0x_rootToHex (bs : List Nat) :
    trim0x (rootToHex bs) = hexEncodeBytes bs := trim0x_cons0x _

theorem rootToHex_ne_nil (bs : List Nat) : rootToHex bs ≠ [] := by simp [rootToHex]

theorem trim0x_eq_self_of_hex (s : Str) (h : ∀ c ∈ s, (hexVal c).isSome) :
    trim0x s = s := by
  rw [trim0x]
  split_ifs with hp
  · exfalso
    match s, hp, h with
    | [], hp, _ => simp at hp
    | [c], hp, _ => simp at hp
    | c1 :: c2 :: rest, hp, h =>
      simp only [List.take, List.cons.injEq] at hp
      have hx := h c2 (by simp)
      rw [hp.2.1] at hx
      simp [hexVal] at hx
  · rfl

theorem hexDecode_ok_of_hex : ∀ (s : Str), (∀ c ∈ s, (hexVal c).isSome) →
    s.length % 2 = 0 → ∃ bs, hexDecode s = .ok bs ∧ bs.length = s.length / 2
  | [], _, _ => ⟨[], rfl, rfl⟩
  | [_], _, hev => by simp at hev
  | c1 :: c2 :: rest, hhex, hev => by
    obtain ⟨v1, hv1⟩ := Option.isSome_iff_exists.mp (hhex c1 (by simp))
    obtain ⟨v2, hv2⟩ := Option.isSome_iff_exists.mp (hhex c2 (by simp))
    obtain ⟨bs, hbs, hlen⟩ := hexDecode_ok_of_hex rest
      (fun c hc => hhex c (by simp [hc]))
      (by simp only [List.length_cons] at hev ⊢; omega)
    refine ⟨(16 * v1 + v2) :: bs, ?_, ?_⟩
    · rw [hexDecode, hv1, hv2, hbs]
    · simp only [List.length_cons, hlen]
      omega

theorem hexEncodeBytes_length (bs : List Nat) :
    (hexEncodeBytes bs).length = 2 * bs.length := by
  induction bs with
  | nil => rfl
  | cons b rest ih => simp [hexEncodeBytes, ih]; omega

/-! ## Lemmas: little-endian bytes -/

theorem leToNat_leBytes (w : Nat) : ∀ n, leToNat (leBytes w n) = n % 256 ^ w := by
  induction w with
  | zero => intro n; simp [leBytes, leToNat, Nat.mod_one]
  | succ w ih =>
    intro n
    rw [leBytes, leToNat, ih (n / 256),
        show (256 : Nat) ^ (w + 1) = 256 * 256 ^ w by ring, Nat.mod_mul]

theorem leBytes_leToNat (bs : List Nat) (h : isBytes bs) :
    leBytes bs.length (leToNat bs) = bs := by
  induction bs with
  | nil => rfl
  | cons b rest ih =>
    have hb : b < 256 := h b (List.mem_cons_self b rest)
    have hrest : isBytes rest := fun x hx => h x (List.mem_cons_of_mem b hx)
    rw [List.length_cons, leBytes, leToNat]
    have h1 : (b + 256 * leToNat rest) % 256 = b := by omega
    have h2 : (b + 256 * leToNat rest) / 256 = leToNat rest := by omega
    rw [h1, h2, ih hrest]

/-! ## Lemmas: the `BeaconBlock` decoder -/

theorem parseUint64_ok_ne_nil (s : Str) (n : Nat) (h : parseUint64 s = .ok n) :
    s ≠ [] := by
  intro hs
  subst hs
  simp [parseUint64] at h

/-- Decoding the encoder's output into any receiver restores the encoded
value: every field of the receiver is overwritten. -/
theorem unpack_marshalJSON {β : Type} (b0 b : BeaconBlock β) (h : b.wf) :
    b0.unpack b.marshalJSON = (none, b) := by
  obtain ⟨hs, hp, hprl, hprb, hsrl, hsrb, hbody⟩ := h
  obtain ⟨body, hb⟩ := Option.isSome_iff_exists.mp hbody
  rw [BeaconBlock.unpack]
  simp only [BeaconBlock.marshalJSON, trim0x_rootToHex,
    parseUint64_natToDec b.Slot hs, parseUint64_natToDec b.ProposerIndex hp,
    hexDecode_hexEncodeBytes b.ParentRoot hprb, hexDecode_hexEncodeBytes b.StateRoot hsrb,
    hprl, hsrl, hb]
  simp [natToDec_ne_nil, rootToHex_ne_nil]
  cases b
  simp_all

/-- In every failing branch of `unpack` the receiver's `Body` is untouched:
the decoder assigns it only after all validations pass. -/
theorem unpack_body_cases {β : Type} (b : BeaconBlock β) (j : BeaconBlockJSON β) :
    (b.unpack j).1 = none ∨ (b.unpack j).2.Body = b.Body := by
  rw [BeaconBlock.unpack]
  repeat' split
  all_goals simp

/-- `(leBytes w n).length = w`. -/
theorem leBytes_length (w : Nat) : ∀ n, (leBytes w n).length = w := by
  induction w with
  | zero => intro n; rfl
  | succ w ih => intro n; simp [leBytes, ih]

theorem lookupJ_cons (k k' : Str) (v : JVal) (fs : List (Str × JVal)) :
    lookupJ k' ((k, v) :: fs) = if k = k' then some v else lookupJ k' fs := rfl

/-- A field bound to the empty string is extracted exactly like an absent
field. -/
theorem getStrField_insert_empty (k k' : Str) (fs : List (Str × JVal))
    (h : lookupJ k fs = none) :
    getStrField k' ((k, .jstr []) :: fs) = getStrField k' fs := by
  rw [getStrField, getStrField, lookupJ_cons]
  by_cases hk : k = k'
  · subst hk
    rw [if_pos rfl, h]
  · rw [if_neg hk]

theorem getBodyField_insert (k : Str) (v : JVal) (fs : List (Str × JVal))
    (h : k ≠ "body".toList) :
    getBodyField ((k, v) :: fs) = getBodyField fs := by
  rw [getBodyField, getBodyField, lookupJ_cons, if_neg h]

/-- Is a textual value a (quoted) string? -/
def JVal.isStr : JVal → Bool
  | .jstr _ => true
  | _ => false

/-- Is a textual value a bare number? -/
def JVal.isNum : JVal → Bool
  | .jnum _ => true
  | _ => false

/-! ## Staged behaviour of `unpack` -/

/-- A field whose hex decodes to a non-zero declared length cannot have
been the empty string. -/
theorem hexOk_ne_nil (s : Str) (bs : List Nat) (n : Nat)
    (hdec : hexDecode (trim0x s) = .ok bs) (hlen : bs.length = n) (hn : n ≠ 0) :
    s ≠ [] := by
  intro h0
  rw [h0] at hdec
  simp [trim0x, hexDecode] at hdec
  subst hdec
  simp at hlen
  omega

theorem unpack_slot_missing {β : Type} (b : BeaconBlock β) (j : BeaconBlockJSON β)
    (h : j.slot = []) : b.unpack j = (some "slot missing", b) := by
  rw [BeaconBlock.unpack]
  simp [h]

theorem unpack_proposer_missing {β : Type} (b : BeaconBlock β) (j : BeaconBlockJSON β)
    (ns : Nat) (hns : parseUint64 j.slot = .ok ns) (hp : j.proposerIndex = []) :
    b.unpack j = (some "proposer index missing", { b with Slot := ns }) := by
  have hsne := parseUint64_ok_ne_nil _ _ hns
  rw [BeaconBlock.unpack]
  simp [hsne, hns, hp]

theorem unpack_parent_missing {β : Type} (b : BeaconBlock β) (j : BeaconBlockJSON β)
    (ns np : Nat) (hns : parseUint64 j.slot = .ok ns)
    (hnp : parseUint64 j.proposerIndex = .ok np) (hpr : j.parentRoot = []) :
    b.unpack j = (some "parent root missing", { b with Slot := ns, ProposerIndex := np }) := by
  have hsne := parseUint64_ok_ne_nil _ _ hns
  have hpne := parseUint64_ok_ne_nil _ _ hnp
  rw [BeaconBlock.unpack]
  simp [hsne, hns, hpne, hnp, hpr]

theorem unpack_parent_badlen {β : Type} (b : BeaconBlock β) (j : BeaconBlockJSON β)
    (ns np : Nat) (pr : List Nat) (hns : parseUint64 j.slot = .ok ns)
    (hnp : parseUint64 j.proposerIndex = .ok np)
    (hpr : hexDecode (trim0x j.parentRoot) = .ok pr) (hprne : j.parentRoot ≠ [])
    (hplen : pr.length ≠ RootLength) :
    b.unpack j = (some "incorrect length for parent root",
      { b with Slot := ns, ProposerIndex := np }) := by
  have hsne := parseUint64_ok_ne_nil _ _ hns
  have hpne := parseUint64_ok_ne_nil _ _ hnp
  rw [BeaconBlock.unpack]
  simp [hsne, hns, hpne, hnp, hprne, hpr, hplen]

theorem unpack_state_missing {β : Type} (b : BeaconBlock β) (j : BeaconBlockJSON β)
    (ns np : Nat) (pr : List Nat) (hns : parseUint64 j.slot = .ok ns)
    (hnp : parseUint64 j.proposerIndex = .ok np)
    (hpr : hexDecode (trim0x j.parentRoot) = .ok pr) (hplen : pr.length = RootLength)
    (hsr : j.stateRoot = []) :
    b.unpack j = (some "state root missing",
      { b with Slot := ns, ProposerIndex := np, ParentRoot := pr }) := by
  have hsne := parseUint64_ok_ne_nil _ _ hns
  have hpne := parseUint64_ok_ne_nil _ _ hnp
  have hprne := hexOk_ne_nil j.parentRoot pr RootLength hpr hplen (by decide)
  rw [BeaconBlock.unpack]
  simp [hsne, hns, hpne, hnp, hprne, hpr, hplen, hsr]

theorem unpack_body_missing {β : Type} (b : BeaconBlock β) (j : BeaconBlockJSON β)
    (ns np : Nat) (pr sr : List Nat) (hns : parseUint64 j.slot = .ok ns)
    (hnp : parseUint64 j.proposerIndex = .ok np)
    (hpr : hexDecode (trim0x j.parentRoot) = .ok pr) (hplen : pr.length = RootLength)
    (hsr : hexDecode (trim0x j.stateRoot) = .ok sr) (hslen : sr.length = RootLength)
    (hbody : j.body = none) :
    b.unpack j = (some "body missing",
      { b with Slot := ns, ProposerIndex := np, ParentRoot := pr, StateRoot := sr }) := by
  have hsne := parseUint64_ok_ne_nil _ _ hns
  have hpne := parseUint64_ok_ne_nil _ _ hnp
  have hprne := hexOk_ne_nil j.parentRoot pr RootLength hpr hplen (by decide)
  have hsrne := hexOk_ne_nil j.stateRoot sr RootLength hsr hslen (by decide)
  rw [BeaconBlock.unpack]
  simp [hsne, hns, hpne, hnp, hprne, hpr, hplen, hsrne, hsr, hslen, hbody]

theorem unpack_ok {β : Type} (b : BeaconBlock β) (j : BeaconBlockJSON β)
    (ns np : Nat) (pr sr : List Nat) (body : β) (hns : parseUint64 j.slot = .ok ns)
    (hnp : parseUint64 j.proposerIndex = .ok np)
    (hpr : hexDecode (trim0x j.parentRoot) = .ok pr) (hplen : pr.length = RootLength)
    (hsr : hexDecode (trim0x j.stateRoot) = .ok sr) (hslen : sr.length = RootLength)
    (hbody : j.body = some body) :
    b.unpack j = (none, ⟨ns, np, pr, sr, some body⟩) := by
  have hsne := parseUint64_ok_ne_nil _ _ hns
  have hpne := parseUint64_ok_ne_nil _ _ hnp
  have hprne := hexOk_ne_nil j.parentRoot pr RootLength hpr hplen (by decide)
  have hsrne := hexOk_ne_nil j.stateRoot sr RootLength hsr hslen (by decide)
  rw [BeaconBlock.unpack]
  simp [hsne, hns, hpne, hnp, hprne, hpr, hplen, hsrne, hsr, hslen, hbody]

theorem depUnpack_pubkey_badlen (d : DepositMessage) (dj : DepositMessageJSON)
    (pk : List Nat) (hpk : hexDecode (trim0x dj.pubkey) = .ok pk)
    (hpkne : dj.pubkey ≠ []) (hpklen : pk.length ≠ PublicKeyLength) :
    d.unpack dj = (some "incorrect length for public key", d) := by
  rw [DepositMessage.unpack]
  simp [hpkne, hpk, hpklen]

theorem depUnpack_amount_missing (d : DepositMessage) (dj : DepositMessageJSON)
    (pk wc : List Nat) (hpk : hexDecode (trim0x dj.pubkey) = .ok pk)
    (hpklen : pk.length = PublicKeyLength)
    (hwc : hexDecode (trim0x dj.withdrawalCredentials) = .ok wc)
    (hwclen : wc.length = RootLength) (ha : dj.amount = []) :
    d.unpack dj = (some "amount missing",
      { d with PublicKey := pk, WithdrawalCredentials := wc }) := by
  have hpkne := hexOk_ne_nil dj.pubkey pk PublicKeyLength hpk hpklen (by decide)
  have hwcne := hexOk_ne_nil dj.withdrawalCredentials wc RootLength hwc hwclen (by decide)
  rw [DepositMessage.unpack]
  simp [hpkne, hpk, hpklen, hwcne, hwc, hwclen, ha]

/-! ## Concrete values used by witnesses and counterexamples -/

/-- A zeroed block (the fresh receiver a caller decodes into). -/
def blkZero : BeaconBlock Unit :=
  ⟨0, 0, List.replicate 32 0, List.replicate 32 0, none⟩

/-- A well-formed block with distinctive field values. -/
def blkW : BeaconBlock Unit :=
  ⟨7, 21, List.range 32, (List.range 32).map (fun i => i + 32), some ()⟩

/-- An accepted but non-canonical textual input: `slot` spelled `01`. -/
def jNonCanon : BeaconBlockJSON Unit :=
  { slot := ['0', '1']
    proposerIndex := ['2']
    parentRoot := rootToHex (List.replicate 32 0)
    stateRoot := rootToHex (List.replicate 32 0)
    body := some () }

/-- A block with `Slot = 5`, used to exhibit partial mutation. -/
def blkFive : BeaconBlock Unit :=
  ⟨5, 0, List.replicate 32 0, List.replicate 32 0, none⟩

/-- Textual input with a valid `slot` but no `proposer_index`. -/
def jPartial : BeaconBlockJSON Unit :=
  { slot := ['7'], proposerIndex := [], parentRoot := [], stateRoot := [], body := none }

/-- Textual input with no `slot` at all. -/
def jNoSlot : BeaconBlockJSON Unit :=
  { slot := [], proposerIndex := [], parentRoot := [], stateRoot := [], body := none }

/-- A zeroed deposit message (fresh receiver). -/
def depZero : DepositMessage :=
  ⟨List.replicate 48 0, List.replicate 32 0, 0⟩

/-- Deposit-message textual input with valid `pubkey` and
`withdrawal_credentials` but no `amount`. -/
def djNoAmount : DepositMessageJSON :=
  { pubkey := rootToHex (List.replicate 48 0)
    withdrawalCredentials := rootToHex (List.replicate 32 17)
    amount := [] }

/-! ## The claims -/

/-- C1: for every well-formed `BeaconBlock` value `v` (fixed-length byte
fields of their declared length, body non-nil), decoding the text produced
by the textual encoder yields `v` again — `unpack` after `marshalJSON`
restores every field of `v` into any receiver (Go's stdlib JSON byte layer
for the flat string struct `beaconBlockJSON` is the identity on that
struct). -/
theorem C1_textual_roundtrip {β : Type} (b0 v : BeaconBlock β) (h : v.wf) :
    b0.unpack v.marshalJSON = (none, v) :=
  unpack_marshalJSON b0 v h

/-- Witness for C1 at a concrete well-formed block. -/
theorem C1_textual_roundtrip_witness :
    blkZero.unpack blkW.marshalJSON = (none, blkW) :=
  C1_textual_roundtrip blkZero blkW (by decide)

/-- C2 counterexample: the decoder accepts the non-canonical input whose
`slot` is spelled `01`, and re-encoding the decoded value spells it `1`:
`toText (fromText t) ≠ t` for this accepted `t`. -/
theorem C2_stability_counterexample :
    (blkZero.unpack jNonCanon).1 = none ∧
    (blkZero.unpack jNonCanon).2.marshalJSON ≠ jNonCanon := by
  decide

/-- C2 amended: re-encoding a decoded textual input reproduces the input
byte-for-byte when the input is canonical, i.e. is itself the encoder's
output for some well-formed value (the form all conformance fixtures use);
accepted non-canonical spellings (leading-zero decimals, missing `0x`,
uppercase hex) re-encode to their canonical form instead. -/
theorem C2_stability_canonical {β : Type} (b0 : BeaconBlock β) (t : BeaconBlockJSON β)
    (h : ∃ v : BeaconBlock β, v.wf ∧ t = v.marshalJSON) :
    (b0.unpack t).1 = none ∧ (b0.unpack t).2.marshalJSON = t := by
  obtain ⟨v, hv, ht⟩ := h
  subst ht
  rw [unpack_marshalJSON b0 v hv]
  exact ⟨rfl, rfl⟩

/-- Witness for C2 at a concrete canonical input. -/
theorem C2_stability_canonical_witness :
    (blkZero.unpack blkW.marshalJSON).1 = none ∧
    (blkZero.unpack blkW.marshalJSON).2.marshalJSON = blkW.marshalJSON :=
  C2_stability_canonical blkZero blkW.marshalJSON ⟨blkW, by decide, rfl⟩

/-- C3: the SSZ binary codec round-trips in both directions for the
fixed-size `DepositMessage` shape: decode ∘ encode is the identity on every
well-formed value, and encode ∘ decode is the identity on every accepted
byte string, so an accepted byte string has a unique valid
reconstruction. -/
theorem C3_ssz_roundtrip :
    (∀ d : DepositMessage, d.wf →
      DepositMessage.unmarshalSSZ d.marshalSSZ = .ok d) ∧
    (∀ (bs : List Nat) (d : DepositMessage), isBytes bs →
      DepositMessage.unmarshalSSZ bs = .ok d → d.marshalSSZ = bs) := by
  constructor
  · rintro d ⟨hpl, hpb, hwl, hwb, ha⟩
    rw [PublicKeyLength] at hpl
    rw [RootLength] at hwl
    rw [DepositMessage.marshalSSZ, DepositMessage.unmarshalSSZ, List.append_assoc]
    have hlen : (d.PublicKey ++ (d.WithdrawalCredentials ++ leBytes 8 d.Amount)).length = 88 := by
      simp [hpl, hwl, leBytes_length]
    rw [if_pos hlen]
    have htake : (d.PublicKey ++ (d.WithdrawalCredentials ++ leBytes 8 d.Amount)).take 48
        = d.PublicKey := List.take_left' hpl
    have hdrop : (d.PublicKey ++ (d.WithdrawalCredentials ++ leBytes 8 d.Amount)).drop 48
        = d.WithdrawalCredentials ++ leBytes 8 d.Amount := List.drop_left' hpl
    have htake2 : (d.WithdrawalCredentials ++ leBytes 8 d.Amount).take 32
        = d.WithdrawalCredentials := List.take_left' hwl
    have hdrop80 : (d.PublicKey ++ (d.WithdrawalCredentials ++ leBytes 8 d.Amount)).drop 80
        = leBytes 8 d.Amount := by
      rw [show (80 : Nat) = 48 + 32 by norm_num, ← List.drop_drop, hdrop, List.drop_left' hwl]
    have hamount : leToNat (leBytes 8 d.Amount) = d.Amount := by
      rw [leToNat_leBytes]
      exact Nat.mod_eq_of_lt (by norm_num at ha ⊢; omega)
    rw [htake, hdrop, htake2, hdrop80, hamount]
  · intro bs d hb hd
    rw [DepositMessage.unmarshalSSZ] at hd
    by_cases hl : bs.length = 88
    · rw [if_pos hl] at hd
      cases hd
      rw [DepositMessage.marshalSSZ]
      have hdl : (bs.drop 80).length = 8 := by simp [hl]
      have hdb : isBytes (bs.drop 80) := fun x hx => hb x (List.mem_of_mem_drop hx)
      have hle : leBytes 8 (leToNat (bs.drop 80)) = bs.drop 80 := by
        rw [← hdl, leBytes_leToNat (bs.drop 80) hdb]
      simp only [hle]
      rw [show (80 : Nat) = 48 + 32 by norm_num, ← List.drop_drop,
          List.append_assoc, List.take_append_drop, List.take_append_drop]
    · rw [if_neg hl] at hd
      cases hd

/-- Witness for C3: both directions at a concrete deposit message. -/
theorem C3_ssz_roundtrip_witness :
    DepositMessage.unmarshalSSZ depZero.marshalSSZ = .ok depZero ∧
    depZero.marshalSSZ = depZero.marshalSSZ := by
  have h1 := C3_ssz_roundtrip.1 depZero (by decide)
  exact ⟨h1, C3_ssz_roundtrip.2 depZero.marshalSSZ depZero (by decide) h1 ▸ rfl⟩

/-- C4 counterexample: a decode that fails after validating `slot` leaves
the receiver changed — the error is reported, yet the target's `Slot` went
from 5 to 7, so the target is not "left unchanged from its state before
the call". -/
theorem C4_mutation_counterexample :
    (blkFive.unpack jPartial).1 = some "proposer index missing" ∧
    (blkFive.unpack jPartial).2 ≠ blkFive := by
  decide

/-- C4 amended: when a textual decode fails, no value is reported as
successfully decoded and the `Body` field of the receiver is never
assigned (it is set only after every validation passes); fields validated
before the failing one, however, may already have been overwritten in the
receiver. -/
theorem C4_error_body_unchanged {β : Type} (b : BeaconBlock β) (j : BeaconBlockJSON β)
    (e : String) (h : (b.unpack j).1 = some e) :
    (b.unpack j).2.Body = b.Body := by
  rcases unpack_body_cases b j with h0 | h0
  · rw [h0] at h
    cases h
  · exact h0

/-- Witness for C4 at the concrete failing decode. -/
theorem C4_error_body_unchanged_witness :
    (blkFive.unpack jPartial).2.Body = blkFive.Body :=
  C4_error_body_unchanged blkFive jPartial "proposer index missing" (by decide)

/-- C5 counterexample: the YAML encoder renders the 64-bit `slot` of a
concrete block as a bare number (`beaconBlockYAML.Slot` is `uint64`), not
as a decimal string. -/
theorem C5_yaml_bare_number_counterexample :
    lookupJ "slot".toList (BeaconBlock.yamlTextTree blkW) = some (JVal.jnum 7) ∧
    (JVal.jnum 7).isStr = false := by
  exact ⟨rfl, rfl⟩

/-- C5 amended: the JSON encoder renders the 64-bit integer fields as
decimal strings, but the YAML encoder renders them as bare numbers. -/
theorem C5_wide_int_rendering {β : Type} (b : BeaconBlock β) :
    lookupJ "slot".toList b.jsonTextTree = some (.jstr (natToDec b.Slot)) ∧
    lookupJ "proposer_index".toList b.jsonTextTree = some (.jstr (natToDec b.ProposerIndex)) ∧
    lookupJ "slot".toList b.yamlTextTree = some (.jnum b.Slot) ∧
    lookupJ "proposer_index".toList b.yamlTextTree = some (.jnum b.ProposerIndex) :=
  ⟨rfl, rfl, rfl, rfl⟩

/-- C6: a textual input that parses as an object but lacks a required
field fails with an error naming the missing field, and no value is
reported as decoded: shown for each required field of the block
(`slot`, `proposer index`, `parent root`, `state root`, `body`) and for
the spec's concrete example, a deposit-message input lacking `amount`
failing with `amount missing`. -/
theorem C6_missing_field {β : Type} (b : BeaconBlock β) (j : BeaconBlockJSON β)
    (d : DepositMessage) (dj : DepositMessageJSON) :
    (j.slot = [] → b.unpack j = (some "slot missing", b)) ∧
    (∀ ns, parseUint64 j.slot = .ok ns → j.proposerIndex = [] →
      b.unpack j = (some "proposer index missing", { b with Slot := ns })) ∧
    (∀ ns np, parseUint64 j.slot = .ok ns → parseUint64 j.proposerIndex = .ok np →
      j.parentRoot = [] →
      b.unpack j = (some "parent root missing",
        { b with Slot := ns, ProposerIndex := np })) ∧
    (∀ ns np pr, parseUint64 j.slot = .ok ns → parseUint64 j.proposerIndex = .ok np →
      hexDecode (trim0x j.parentRoot) = .ok pr → pr.length = RootLength →
      j.stateRoot = [] →
      b.unpack j = (some "state root missing",
        { b with Slot := ns, ProposerIndex := np, ParentRoot := pr })) ∧
    (∀ ns np pr sr, parseUint64 j.slot = .ok ns → parseUint64 j.proposerIndex = .ok np →
      hexDecode (trim0x j.parentRoot) = .ok pr → pr.length = RootLength →
      hexDecode (trim0x j.stateRoot) = .ok sr → sr.length = RootLength →
      j.body = none →
      b.unpack j = (some "body missing",
        { b with Slot := ns, ProposerIndex := np, ParentRoot := pr, StateRoot := sr })) ∧
    (∀ pk wc, hexDecode (trim0x dj.pubkey) = .ok pk → pk.length = PublicKeyLength →
      hexDecode (trim0x dj.withdrawalCredentials) = .ok wc → wc.length = RootLength →
      dj.amount = [] →
      d.unpack dj = (some "amount missing",
        { d with PublicKey := pk, WithdrawalCredentials := wc })) :=
  ⟨fun h => unpack_slot_missing b j h,
   fun ns hns hp => unpack_proposer_missing b j ns hns hp,
   fun ns np hns hnp hpr => unpack_parent_missing b j ns np hns hnp hpr,
   fun ns np pr hns hnp hpr hplen hsr =>
     unpack_state_missing b j ns np pr hns hnp hpr hplen hsr,
   fun ns np pr sr hns hnp hpr hplen hsr hslen hbody =>
     unpack_body_missing b j ns np pr sr hns hnp hpr hplen hsr hslen hbody,
   fun pk wc hpk hpklen hwc hwclen ha =>
     depUnpack_amount_missing d dj pk wc hpk hpklen hwc hwclen ha⟩

/-- Witness for C6: a block input with no `slot`, and a deposit-message
input with valid `pubkey` and `withdrawal_credentials` but no `amount`. -/
theorem C6_missing_field_witness :
    blkZero.unpack jNoSlot = (some "slot missing", blkZero) ∧
    depZero.unpack djNoAmount = (some "amount missing",
      { depZero with PublicKey := List.replicate 48 0,
                     WithdrawalCredentials := List.replicate 32 17 }) := by
  refine ⟨(C6_missing_field blkZero jNoSlot depZero djNoAmount).1 rfl, ?_⟩
  exact (C6_missing_field blkZero jNoSlot depZero djNoAmount).2.2.2.2.2
    (List.replicate 48 0) (List.replicate 32 17)
    rfl (by decide) rfl (by decide) rfl

/-- C7: a fixed-length byte field whose (non-empty) hex value decodes to
any byte count other than the declared one — one byte fewer or one byte
more in particular — is rejected with an incorrect-length error, and
exactly the declared length is accepted: the block's 32-byte parent root
and, for the spec's example, the deposit message's 48-byte public key. -/
theorem C7_length_boundary {β : Type} (b : BeaconBlock β) (j : BeaconBlockJSON β)
    (d : DepositMessage) (dj : DepositMessageJSON) :
    (∀ ns np pr, parseUint64 j.slot = .ok ns → parseUint64 j.proposerIndex = .ok np →
      hexDecode (trim0x j.parentRoot) = .ok pr → j.parentRoot ≠ [] →
      pr.length ≠ RootLength →
      b.unpack j = (some "incorrect length for parent root",
        { b with Slot := ns, ProposerIndex := np })) ∧
    (∀ ns np pr sr body, parseUint64 j.slot = .ok ns → parseUint64 j.proposerIndex = .ok np →
      hexDecode (trim0x j.parentRoot) = .ok pr → pr.length = RootLength →
      hexDecode (trim0x j.stateRoot) = .ok sr → sr.length = RootLength →
      j.body = some body →
      b.unpack j = (none, ⟨ns, np, pr, sr, some body⟩)) ∧
    (∀ pk, hexDecode (trim0x dj.pubkey) = .ok pk → dj.pubkey ≠ [] →
      pk.length ≠ PublicKeyLength →
      d.unpack dj = (some "incorrect length for public key", d)) :=
  ⟨fun ns np pr hns hnp hpr hprne hplen =>
     unpack_parent_badlen b j ns np pr hns hnp hpr hprne hplen,
   fun ns np pr sr body hns hnp hpr hplen hsr hslen hbody =>
     unpack_ok b j ns np pr sr body hns hnp hpr hplen hsr hslen hbody,
   fun pk hpk hpkne hpklen => depUnpack_pubkey_badlen d dj pk hpk hpkne hpklen⟩

/-- Block input whose parent root hex decodes to 31 bytes. -/
def j31 : BeaconBlockJSON Unit :=
  { slot := ['1'], proposerIndex := ['2'],
    parentRoot := rootToHex (List.replicate 31 1), stateRoot := [], body := none }

/-- Block input whose parent root hex decodes to 33 bytes. -/
def j33 : BeaconBlockJSON Unit :=
  { slot := ['1'], proposerIndex := ['2'],
    parentRoot := rootToHex (List.replicate 33 1), stateRoot := [], body := none }

/-- Fully valid block input with exact 32-byte roots. -/
def jGood : BeaconBlockJSON Unit :=
  { slot := ['1'], proposerIndex := ['2'],
    parentRoot := rootToHex (List.replicate 32 3),
    stateRoot := rootToHex (List.replicate 32 4), body := some () }

/-- Deposit input whose public key hex decodes to 47 bytes. -/
def dj47 : DepositMessageJSON :=
  { pubkey := rootToHex (List.replicate 47 5), withdrawalCredentials := [], amount := [] }

/-- Deposit input whose public key hex decodes to 49 bytes. -/
def dj49 : DepositMessageJSON :=
  { pubkey := rootToHex (List.replicate 49 5), withdrawalCredentials := [], amount := [] }

/-- Witness for C7: 31 and 33 bytes rejected and 32 accepted for the
parent root; 47 and 49 bytes rejected for the 48-byte public key. -/
theorem C7_length_boundary_witness :
    blkZero.unpack j31 = (some "incorrect length for parent root",
      { blkZero with Slot := 1, ProposerIndex := 2 }) ∧
    blkZero.unpack j33 = (some "incorrect length for parent root",
      { blkZero with Slot := 1, ProposerIndex := 2 }) ∧
    blkZero.unpack jGood = (none, ⟨1, 2, List.replicate 32 3, List.replicate 32 4, some ()⟩) ∧
    depZero.unpack dj47 = (some "incorrect length for public key", depZero) ∧
    depZero.unpack dj49 = (some "incorrect length for public key", depZero) := by
  refine ⟨?_, ?_, ?_, ?_, ?_⟩
  · exact (C7_length_boundary blkZero j31 depZero dj47).1 1 2 (List.replicate 31 1)
      rfl rfl rfl (by decide) (by decide)
  · exact (C7_length_boundary blkZero j33 depZero dj47).1 1 2 (List.replicate 33 1)
      rfl rfl rfl (by decide) (by decide)
  · exact (C7_length_boundary blkZero jGood depZero dj47).2.1 1 2
      (List.replicate 32 3) (List.replicate 32 4) ()
      rfl rfl rfl (by decide) rfl (by decide) rfl
  · exact (C7_length_boundary blkZero j31 depZero dj47).2.2 (List.replicate 47 5)
      rfl (by decide) (by decide)
  · exact (C7_length_boundary blkZero j31 depZero dj49).2.2 (List.replicate 49 5)
      rfl (by decide) (by decide)

/-- C8: decoding zero bytes of JSON fails with the scanner's
`unexpected end of JSON input` before any field-level validation runs: the
receiver is returned untouched and the message is none of the decoder's
field-level errors. -/
theorem C8_empty_input (b : BeaconBlock JVal) :
    b.unmarshalJSON [] = (some "unexpected end of JSON input", b) ∧
    "unexpected end of JSON input" ∉ ["slot missing", "proposer index missing",
      "parent root missing", "state root missing", "body missing"] :=
  ⟨rfl, by decide⟩

/-- C9: a required textual field present but equal to the empty string is
treated exactly like an absent field: at the struct-extraction layer,
binding `slot`/`proposer_index`/`parent_root`/`state_root` to the empty
string yields the same `beaconBlockJSON` as omitting the key, and `unpack`
fails on the empty field with the corresponding `<field> missing` error. -/
theorem C9_empty_equals_absent {β : Type} (b : BeaconBlock β) (j : BeaconBlockJSON β) :
    (∀ k, k ∈ ["slot".toList, "proposer_index".toList,
        "parent_root".toList, "state_root".toList] →
      ∀ fs, lookupJ k fs = none →
        jvalToBlockJSON (.jobj ((k, .jstr []) :: fs)) = jvalToBlockJSON (.jobj fs)) ∧
    (j.slot = [] → b.unpack j = (some "slot missing", b)) ∧
    (∀ ns, parseUint64 j.slot = .ok ns → j.proposerIndex = [] →
      b.unpack j = (some "proposer index missing", { b with Slot := ns })) ∧
    (∀ ns np, parseUint64 j.slot = .ok ns → parseUint64 j.proposerIndex = .ok np →
      j.parentRoot = [] →
      b.unpack j = (some "parent root missing",
        { b with Slot := ns, ProposerIndex := np })) ∧
    (∀ ns np pr, parseUint64 j.slot = .ok ns → parseUint64 j.proposerIndex = .ok np →
      hexDecode (trim0x j.parentRoot) = .ok pr → pr.length = RootLength →
      j.stateRoot = [] →
      b.unpack j = (some "state root missing",
        { b with Slot := ns, ProposerIndex := np, ParentRoot := pr })) := by
  refine ⟨?_, fun h => unpack_slot_missing b j h,
    fun ns hns hp => unpack_proposer_missing b j ns hns hp,
    fun ns np hns hnp hpr => unpack_parent_missing b j ns np hns hnp hpr,
    fun ns np pr hns hnp hpr hplen hsr =>
      unpack_state_missing b j ns np pr hns hnp hpr hplen hsr⟩
  intro k hk fs hnone
  have hkb : k ≠ "body".toList := by
    simp only [List.mem_cons, List.not_mem_nil, or_false] at hk
    rcases hk with rfl | rfl | rfl | rfl <;> decide
  have e1 := getStrField_insert_empty k ("slot".toList) fs hnone
  have e2 := getStrField_insert_empty k ("proposer_index".toList) fs hnone
  have e3 := getStrField_insert_empty k ("parent_root".toList) fs hnone
  have e4 := getStrField_insert_empty k ("state_root".toList) fs hnone
  have e5 := getBodyField_insert k (.jstr []) fs hkb
  simp only [jvalToBlockJSON, e1, e2, e3, e4, e5]

/-- Witness for C9: an object binding `slot` to the empty string extracts
like one without `slot`; a concrete input with empty `proposer_index`
fails with `proposer index missing`. -/
theorem C9_empty_equals_absent_witness :
    jvalToBlockJSON (.jobj [("slot".toList, .jstr [])]) = jvalToBlockJSON (.jobj []) ∧
    blkZero.unpack jPartial = (some "proposer index missing", { blkZero with Slot := 7 }) := by
  constructor
  · exact (C9_empty_equals_absent blkZero jPartial).1 "slot".toList (by simp) [] rfl
  · exact (C9_empty_equals_absent blkZero jPartial).2.2.1 7 rfl rfl

/-- C10: hex byte fields accept input with or without the `0x` prefix: any
string of 64 hex characters decodes to 32 bytes, and giving the
parent-root or state-root field either `s` or `0x` + `s` produces the same
decode outcome. -/
theorem C10_hex_0x_optional {β : Type} (b : BeaconBlock β) (j : BeaconBlockJSON β)
    (s : Str) (hlen : s.length = 64) (hhex : ∀ c ∈ s, (hexVal c).isSome) :
    ∃ bs, hexDecode s = .ok bs ∧ bs.length = 32 ∧
      b.unpack { j with parentRoot := '0' :: 'x' :: s } =
        b.unpack { j with parentRoot := s } ∧
      b.unpack { j with stateRoot := '0' :: 'x' :: s } =
        b.unpack { j with stateRoot := s } := by
  obtain ⟨bs, hdec, hbl⟩ := hexDecode_ok_of_hex s hhex (by omega)
  have hs : s ≠ [] := by
    intro h0
    subst h0
    simp at hlen
  have htrim : trim0x s = s := trim0x_eq_self_of_hex s hhex
  refine ⟨bs, hdec, by omega, ?_, ?_⟩
  · rw [BeaconBlock.unpack, BeaconBlock.unpack]
    simp only [trim0x_cons0x, htrim]
    simp [hs]
  · rw [BeaconBlock.unpack, BeaconBlock.unpack]
    simp only [trim0x_cons0x, htrim]
    simp [hs]

/-- 64 lowercase hex characters (no `0x`). -/
def hex64 : Str := hexEncodeBytes (List.range 32)

/-- Witness for C10 at a concrete 64-character hex string. -/
theorem C10_hex_0x_optional_witness :
    ∃ bs, hexDecode hex64 = .ok bs ∧ bs.length = 32 ∧
      blkZero.unpack { jGood with parentRoot := '0' :: 'x' :: hex64 } =
        blkZero.unpack { jGood with parentRoot := hex64 } ∧
      blkZero.unpack { jGood with stateRoot := '0' :: 'x' :: hex64 } =
        blkZero.unpack { jGood with stateRoot := hex64 } :=
  C10_hex_0x_optional blkZero jGood hex64 (by decide) (by decide)

end GoEth2
